import Mathlib

/-!
Verification of the chunk/vector data engine of the `dcyfr-ai-rag` repository.

The development shallowly embeds the TypeScript sources:
* `src/stores/vector/in-memory.ts` (`InMemoryVectorStore`): CRUD surface,
  metadata filter evaluation, similarity metrics, linear-scan search;
* `src/loaders/text/index.ts` (`TextLoader.chunkDocument`): windowed chunking
  with overlap clamping;
* `src/loaders/markdown/index.ts` (`MarkdownLoader.chunkText`): windowed
  chunking without clamping;
* `src/pipeline/embedding/pipeline.ts` (`IngestionPipeline`,
  `RetrievalPipeline`): ingestion with per-path error capture, retrieval
  with defaulted options, `findSimilar`.

JavaScript numbers are embedded as exact numbers: stored metadata values and
embedding vectors, which are only ever compared or copied, live in `ℚ`;
the similarity computations, which take square roots, live in `ℝ`.
JavaScript `Map` is embedded as an insertion-ordered association list with
unique keys, JavaScript objects used as open string-keyed records as
association lists where the first binding of a key wins (object spread
prepends the overriding bindings).  Possibly diverging `while` loops are
embedded with an explicit iteration budget (`Option`-valued: `none` means
the loop has not finished within the budget).
-/

/-- A scalar JSON-like metadata value (string, float, boolean or null). -/
inductive MetaScalar
  | str (s : String)
  | num (q : ℚ)
  | boolv (b : Bool)
  | null
deriving DecidableEq

/-- A metadata value: a scalar or an array of scalars (as used by the
`in`/`nin` filter operators). -/
inductive MetaValue
  | scalar (v : MetaScalar)
  | arr (l : List MetaScalar)
deriving DecidableEq

/-- Open string-keyed metadata record; the first binding of a key wins. -/
abbrev Metadata := List (String × MetaValue)

/-- The three distance metrics of `VectorStoreConfig.distanceMetric`. -/
inductive DistanceMetric
  | cosine
  | euclidean
  | dot
deriving DecidableEq

/-- `VectorStoreConfig` from `src/types/index.ts`. -/
structure VectorStoreConfig where
  collectionName : String
  embeddingDimensions : ℕ
  distanceMetric : DistanceMetric
deriving DecidableEq

/-- `DocumentChunk` from `src/types/index.ts`; `embedding` is optional. -/
structure DocumentChunk where
  id : String
  documentId : String
  content : String
  index : ℕ
  metadata : Metadata
  embedding : Option (List ℚ)
deriving DecidableEq

/-- Loader-level `Document` from `src/types/index.ts`. -/
structure Document where
  id : String
  content : String
  metadata : Metadata
  embedding : Option (List ℚ)
deriving DecidableEq

/-- A leaf `MetadataFilter`; the operator is kept as a raw string because the
implementation dispatches on it with a `switch` carrying a `default` arm. -/
structure MetadataFilter where
  field : String
  operator : String
  value : MetaValue
deriving DecidableEq

/-- The errors thrown by the store and the retrieval pipeline. -/
inductive StoreError
  | missingEmbedding (id : String)
  | dimensionMismatch (expected got : ℕ)
  | invalidQuery
  | notFound (id : String)
  | noEmbedding (id : String)
deriving DecidableEq

/-- The state of an `InMemoryVectorStore`: its fixed configuration and the
`documents: Map<string, DocumentChunk>` backing map, embedded as an
insertion-ordered association list with unique keys. -/
structure InMemoryVectorStore where
  config : VectorStoreConfig
  documents : List (String × DocumentChunk)
deriving DecidableEq

/-- A freshly constructed store (`new InMemoryVectorStore(config)`). -/
def InMemoryVectorStore.empty (config : VectorStoreConfig) : InMemoryVectorStore :=
  { config := config, documents := [] }

/-- `Map.prototype.set`: replace in place if the key is present, else append. -/
def mapSet (k : String) (v : DocumentChunk) :
    List (String × DocumentChunk) → List (String × DocumentChunk)
  | [] => [(k, v)]
  | (k', v') :: rest =>
    if k' = k then (k, v) :: rest else (k', v') :: mapSet k v rest

/-- `Map.prototype.get` (as `Option`). -/
def mapGet (m : List (String × DocumentChunk)) (k : String) : Option DocumentChunk :=
  (m.find? (fun p => p.1 = k)).map (·.2)

/-- `Map.prototype.delete`. -/
def mapDelete (m : List (String × DocumentChunk)) (k : String) :
    List (String × DocumentChunk) :=
  m.filter (fun p => ¬(p.1 = k))

/-- `InMemoryVectorStore.addDocuments`: each chunk is validated (embedding
present, length equal to the configured dimensions) and then inserted; the
first invalid chunk aborts the call with an error, after the chunks before
it have already been inserted. -/
def InMemoryVectorStore.addDocuments (st : InMemoryVectorStore) :
    List DocumentChunk → InMemoryVectorStore × Option StoreError
  | [] => (st, none)
  | doc :: rest =>
    match doc.embedding with
    | none => (st, some (.missingEmbedding doc.id))
    | some e =>
      if e.length = st.config.embeddingDimensions then
        InMemoryVectorStore.addDocuments
          { st with documents := mapSet doc.id doc st.documents } rest
      else
        (st, some (.dimensionMismatch st.config.embeddingDimensions e.length))

/-- A partial update (`Partial<DocumentChunk>`): absent fields are `none`. -/
structure ChunkUpdate where
  id : Option String
  documentId : Option String
  content : Option String
  index : Option ℕ
  metadata : Option Metadata
  embedding : Option (List ℚ)
deriving DecidableEq

/-- The spread `{ ...existing, ...update }` of `updateDocument`. -/
def applyUpdate (c : DocumentChunk) (u : ChunkUpdate) : DocumentChunk :=
  { id := u.id.getD c.id
    documentId := u.documentId.getD c.documentId
    content := u.content.getD c.content
    index := u.index.getD c.index
    metadata := u.metadata.getD c.metadata
    embedding := match u.embedding with
      | some e => some e
      | none => c.embedding }

/-- `InMemoryVectorStore.updateDocument`: fails with `NotFound` when the id is
absent, otherwise shallow-merges the update over the existing chunk.  No
validation is performed on an embedding supplied by the update. -/
def InMemoryVectorStore.updateDocument (st : InMemoryVectorStore) (id : String)
    (u : ChunkUpdate) : InMemoryVectorStore × Option StoreError :=
  match mapGet st.documents id with
  | none => (st, some (.notFound id))
  | some existing =>
    ({ st with documents := mapSet id (applyUpdate existing u) st.documents }, none)

/-- `InMemoryVectorStore.deleteDocuments`: idempotent removal. -/
def InMemoryVectorStore.deleteDocuments (st : InMemoryVectorStore)
    (ids : List String) : InMemoryVectorStore :=
  { st with documents := ids.foldl (fun m id => mapDelete m id) st.documents }

/-- `InMemoryVectorStore.getDocument`. -/
def InMemoryVectorStore.getDocument (st : InMemoryVectorStore) (id : String) :
    Option DocumentChunk :=
  mapGet st.documents id

/-- `InMemoryVectorStore.clear`. -/
def InMemoryVectorStore.clear (st : InMemoryVectorStore) : InMemoryVectorStore :=
  { st with documents := [] }

/-- `getStats().documentCount`. -/
def InMemoryVectorStore.documentCount (st : InMemoryVectorStore) : ℕ :=
  st.documents.length

/-- `InMemoryVectorStore.matchesFilter`: the `switch` over the filter operator.
A stored value is looked up in the chunk's metadata (`undefined` when absent,
embedded as `none`); numeric operators require a numeric stored value and
evaluate to `false` otherwise; `in`/`nin` require an array filter value; an
unknown operator evaluates to `false`. -/
def InMemoryVectorStore.matchesFilter (doc : DocumentChunk) (f : MetadataFilter) :
    Bool :=
  let value : Option MetaValue := doc.metadata.lookup f.field
  if f.operator = "eq" then value = some f.value
  else if f.operator = "ne" then ¬(value = some f.value)
  else if f.operator = "gt" then
    match value, f.value with
    | some (.scalar (.num q)), .scalar (.num w) => w < q
    | _, _ => false
  else if f.operator = "gte" then
    match value, f.value with
    | some (.scalar (.num q)), .scalar (.num w) => w ≤ q
    | _, _ => false
  else if f.operator = "lt" then
    match value, f.value with
    | some (.scalar (.num q)), .scalar (.num w) => q < w
    | _, _ => false
  else if f.operator = "lte" then
    match value, f.value with
    | some (.scalar (.num q)), .scalar (.num w) => q ≤ w
    | _, _ => false
  else if f.operator = "in" then
    match f.value, value with
    | .arr l, some (.scalar s) => s ∈ l
    | _, _ => false
  else if f.operator = "nin" then
    match f.value, value with
    | .arr l, some (.scalar s) => ¬(s ∈ l)
    | .arr _, _ => true
    | _, _ => false
  else false

/-- Pointwise product sum of two equal-length vectors
(`InMemoryVectorStore.dotProduct`). -/
noncomputable def dotProduct (a b : List ℝ) : ℝ :=
  ((a.zip b).map (fun p => p.1 * p.2)).sum

/-- `InMemoryVectorStore.cosineSimilarity`: `0` when either magnitude is
exactly `0`, otherwise the normalized dot product. -/
noncomputable def cosineSimilarity (a b : List ℝ) : ℝ :=
  let dp := dotProduct a b
  let magA := (a.map (fun x => x * x)).sum
  let magB := (b.map (fun x => x * x)).sum
  let magnitude := Real.sqrt magA * Real.sqrt magB
  if magnitude = 0 then 0 else dp / magnitude

/-- `InMemoryVectorStore.euclideanDistance`. -/
noncomputable def euclideanDistance (a b : List ℝ) : ℝ :=
  Real.sqrt (((a.zip b).map (fun p => (p.1 - p.2) * (p.1 - p.2))).sum)

/-- `InMemoryVectorStore.calculateSimilarity`: the per-metric score. -/
noncomputable def calculateSimilarity : DistanceMetric → List ℝ → List ℝ → ℝ
  | .cosine, a, b => cosineSimilarity a b
  | .dot, a, b => dotProduct a b
  | .euclidean, a, b => 1 / (1 + euclideanDistance a b)

/-- `InMemoryVectorStore.calculateDistance`: the per-metric distance. -/
noncomputable def calculateDistance : DistanceMetric → List ℝ → List ℝ → ℝ
  | .euclidean, a, b => euclideanDistance a b
  | .cosine, a, b => 1 - cosineSimilarity a b
  | .dot, a, b => -dotProduct a b

/-- A search result: the matched chunk with its score and distance. -/
structure SearchResult where
  document : DocumentChunk
  score : ℝ
  distance : ℝ

/-- Embedding vectors are stored exactly (JavaScript floats are rationals)
and cast to `ℝ` for the similarity computations. -/
def ratVec (v : List ℚ) : List ℝ := v.map (fun q => (q : ℝ))

/-- The candidate step of `search`'s scan: skip a chunk failing the metadata
filter, skip a chunk with no embedding, otherwise score it. -/
noncomputable def searchCandidate (metric : DistanceMetric) (q : List ℚ)
    (filter : Option MetadataFilter) (doc : DocumentChunk) : Option SearchResult :=
  if (match filter with
      | some f => InMemoryVectorStore.matchesFilter doc f
      | none => true) then
    match doc.embedding with
    | some emb =>
      some { document := doc
             score := calculateSimilarity metric (ratVec q) (ratVec emb)
             distance := calculateDistance metric (ratVec q) (ratVec emb) }
    | none => none
  else none

/-- The comparator `(a, b) => b.score - a.score` of `search`'s sort, i.e.
"`a` comes no later than `b` when `b.score ≤ a.score`". -/
noncomputable def sortLE (a b : SearchResult) : Bool :=
  decide (b.score ≤ a.score)

/-- The body of `InMemoryVectorStore.search` on a vector query: scan the
backing map, sort descending by score, truncate to `limit`. -/
noncomputable def InMemoryVectorStore.searchVec (st : InMemoryVectorStore)
    (q : List ℚ) (limit : ℕ) (filter : Option MetadataFilter) : List SearchResult :=
  (((st.documents.map (·.2)).filterMap
      (searchCandidate st.config.distanceMetric q filter)).mergeSort sortLE).take limit

/-- The `query: string | number[]` argument of `search`. -/
inductive QueryInput
  | str (s : String)
  | vec (v : List ℚ)

/-- `InMemoryVectorStore.search`: a string query throws (the in-memory store
requires an embedding vector); a vector query runs the scan. -/
noncomputable def InMemoryVectorStore.search (st : InMemoryVectorStore)
    (q : QueryInput) (limit : ℕ) (filter : Option MetadataFilter) :
    Except StoreError (List SearchResult) :=
  match q with
  | .str _ => .error .invalidQuery
  | .vec v => .ok (st.searchVec v limit filter)

/-- The default of the `limit` parameter of `search` (`limit = 10`). -/
def searchDefaultLimit : ℕ := 10

/-- `search` with the `limit` argument omitted. -/
noncomputable def InMemoryVectorStore.searchNoLimit (st : InMemoryVectorStore)
    (q : List ℚ) (filter : Option MetadataFilter) : List SearchResult :=
  st.searchVec q searchDefaultLimit filter

/-- `content.slice(a, b)` on character positions. -/
def strSlice (s : String) (a b : ℕ) : String :=
  ((s.toList.drop a).take (b - a)).asString

/-- The shared windowing loop of the chunkers:
`while (start < len) { push [start, min(start+S, len)); start += step }`,
embedded with an iteration budget `fuel`; `none` means the loop has not
finished within the budget (for `step = 0` it never finishes). -/
def windowLoop (len S step : ℕ) : ℕ → ℕ → Option (List (ℕ × ℕ))
  | 0, _ => none
  | fuel + 1, start =>
    if start < len then
      (windowLoop len S step fuel (start + step)).map
        (fun rest => (start, min (start + S) len) :: rest)
    else some []

/-- The `[startChar, endChar)` ranges produced by `TextLoader.chunkDocument`
for content length `len`, chunk size `S` and requested overlap `O`: the
overlap is clamped to `S - 1` (`Math.min(chunkOverlap, chunkSize - 1)`),
so the loop advances by `S - min O (S-1)` per iteration. -/
def textChunkRanges (len S O : ℕ) : Option (List (ℕ × ℕ)) :=
  windowLoop len S (S - min O (S - 1)) (len + 1) 0

/-- `TextLoader.chunkDocument`: windowed sub-documents; each chunk's metadata
spreads the parent metadata and then overrides `chunkIndex`, `startChar`,
`endChar` and `parentDocumentId` (no `chunkCount` key is written). -/
def TextLoader.chunkDocument (doc : Document) (S O : ℕ) : List Document :=
  ((textChunkRanges doc.content.length S O).getD []).enum.map fun p =>
    { id := doc.id ++ "-chunk-" ++ toString p.1
      content := strSlice doc.content p.2.1 p.2.2
      metadata :=
        [("chunkIndex", .scalar (.num (p.1 : ℚ))),
         ("startChar", .scalar (.num (p.2.1 : ℚ))),
         ("endChar", .scalar (.num (p.2.2 : ℚ))),
         ("parentDocumentId", .scalar (.str doc.id))] ++ doc.metadata
      embedding := none }

/-- `MarkdownLoader.chunkText` run for `fuel` iterations: the loop advances by
`S - O` per iteration with NO clamping of the overlap `O`. -/
def MarkdownLoader.chunkTextFuel (fuel : ℕ) (text : String) (S O : ℕ) :
    Option (List String) :=
  (windowLoop text.length S (S - O) fuel 0).map (List.map fun r => strSlice text r.1 r.2)

/-- `IngestionPipeline.chunkDocument`: fixed `chunkSize = 1000`,
`overlap = 200` (step 800); first pass generates the chunks with
`chunkCount: 0`, second pass stamps `chunkCount = chunks.length`. -/
def IngestionPipeline.chunkDocument (doc : Document) : List DocumentChunk :=
  let ranges := (windowLoop doc.content.length 1000 800 (doc.content.length + 1) 0).getD []
  let chunks := ranges.enum.map fun p =>
    ({ id := doc.id ++ "-chunk-" ++ toString p.1
       documentId := doc.id
       content := strSlice doc.content p.2.1 p.2.2
       index := p.1
       metadata := doc.metadata ++
         [("chunkIndex", .scalar (.num (p.1 : ℚ))),
          ("chunkCount", .scalar (.num 0)),
          ("startChar", .scalar (.num (p.2.1 : ℚ))),
          ("endChar", .scalar (.num (p.2.2 : ℚ)))]
       embedding := none } : DocumentChunk)
  chunks.map fun c =>
    { c with metadata := ("chunkCount", .scalar (.num (chunks.length : ℚ))) :: c.metadata }

lemma windowLoop_isSome (len S step : ℕ) (hstep : 1 ≤ step) :
    ∀ fuel start, len - start < fuel → (windowLoop len S step fuel start).isSome := by
  intro fuel
  induction fuel with
  | zero => intro start h; omega
  | succ f ih =>
    intro start h
    by_cases hc : start < len
    · have hs := ih (start + step) (by omega)
      simp only [windowLoop, if_pos hc]
      cases hw : windowLoop len S step f (start + step) with
      | none => rw [hw] at hs; simp at hs
      | some rs => simp
    · simp [windowLoop, hc]

lemma windowLoop_nil_of_le (len S step fuel start : ℕ) (h : len ≤ start)
    {rs : List (ℕ × ℕ)} (hw : windowLoop len S step fuel start = some rs) :
    rs = [] := by
  cases fuel with
  | zero => simp [windowLoop] at hw
  | succ f =>
    have hc : ¬ start < len := by omega
    simp [windowLoop, hc] at hw
    exact hw

lemma windowLoop_cons_of_lt (len S step fuel start : ℕ) (h : start < len)
    {rs : List (ℕ × ℕ)} (hw : windowLoop len S step (fuel + 1) start = some rs) :
    ∃ rest, windowLoop len S step fuel (start + step) = some rest ∧
      rs = (start, min (start + S) len) :: rest := by
  simp only [windowLoop, if_pos h] at hw
  cases hw' : windowLoop len S step fuel (start + step) with
  | none => rw [hw'] at hw; simp at hw
  | some rest =>
    rw [hw'] at hw
    simp only [Option.map_some'] at hw
    exact ⟨rest, rfl, (Option.some_inj.mp hw).symm⟩

lemma windowLoop_mem_bounds (len S step : ℕ) :
    ∀ fuel start rs, windowLoop len S step fuel start = some rs →
      ∀ r ∈ rs, start ≤ r.1 ∧ r.1 < len ∧ r.2 = min (r.1 + S) len := by
  intro fuel
  induction fuel with
  | zero => intro start rs hw; simp [windowLoop] at hw
  | succ f ih =>
    intro start rs hw r hr
    by_cases hc : start < len
    · obtain ⟨rest, hrest, hrs⟩ := windowLoop_cons_of_lt len S step f start hc hw
      subst hrs
      rcases List.mem_cons.mp hr with h | h
      · subst h; exact ⟨le_refl _, hc, rfl⟩
      · have := ih (start + step) rest hrest r h
        exact ⟨by omega, this.2⟩
    · rw [windowLoop_nil_of_le len S step (f + 1) start (by omega) hw] at hr
      simp at hr

lemma windowLoop_covers (len S step : ℕ) (hS : step ≤ S) :
    ∀ fuel start rs, windowLoop len S step fuel start = some rs →
      ∀ k, start ≤ k → k < len → ∃ r ∈ rs, r.1 ≤ k ∧ k < r.2 := by
  intro fuel
  induction fuel with
  | zero => intro start rs hw; simp [windowLoop] at hw
  | succ f ih =>
    intro start rs hw k hk hklen
    by_cases hc : start < len
    · obtain ⟨rest, hrest, hrs⟩ := windowLoop_cons_of_lt len S step f start hc hw
      subst hrs
      by_cases hkS : k < start + S
      · exact ⟨(start, min (start + S) len), List.mem_cons_self _ _,
          hk, lt_min hkS hklen⟩
      · obtain ⟨r, hr, h1, h2⟩ := ih (start + step) rest hrest k (by omega) hklen
        exact ⟨r, List.mem_cons_of_mem _ hr, h1, h2⟩
    · omega

lemma windowLoop_ne_nil (len S step fuel start : ℕ) (h : start < len)
    {rs : List (ℕ × ℕ)} (hw : windowLoop len S step fuel start = some rs) :
    rs ≠ [] := by
  cases fuel with
  | zero => simp [windowLoop] at hw
  | succ f =>
    obtain ⟨rest, _, hrs⟩ := windowLoop_cons_of_lt len S step f start h hw
    subst hrs
    simp

lemma windowLoop_head (len S step fuel start : ℕ) (h : start < len)
    {rs : List (ℕ × ℕ)} (hw : windowLoop len S step fuel start = some rs) :
    rs.head? = some (start, min (start + S) len) := by
  cases fuel with
  | zero => simp [windowLoop] at hw
  | succ f =>
    obtain ⟨rest, _, hrs⟩ := windowLoop_cons_of_lt len S step f start h hw
    subst hrs
    rfl

lemma windowLoop_getLast (len S step : ℕ) (hS : step ≤ S) :
    ∀ fuel start rs, windowLoop len S step fuel start = some rs →
      start < len → rs.getLast?.map (·.2) = some len := by
  intro fuel
  induction fuel with
  | zero => intro start rs hw; simp [windowLoop] at hw
  | succ f ih =>
    intro start rs hw hc
    obtain ⟨rest, hrest, hrs⟩ := windowLoop_cons_of_lt len S step f start hc hw
    subst hrs
    by_cases hnext : start + step < len
    · have hne := windowLoop_ne_nil len S step f (start + step) hnext hrest
      cases rest with
      | nil => exact absurd rfl hne
      | cons b l =>
        rw [List.getLast?_cons_cons]
        exact ih (start + step) (b :: l) hrest hnext
    · have : rest = [] :=
        windowLoop_nil_of_le len S step f (start + step) (by omega) hrest
      subst this
      simp only [List.getLast?_singleton, Option.map_some']
      have : min (start + S) len = len := by omega
      rw [this]

lemma windowLoop_chain (len S step : ℕ) (hS : step ≤ S) :
    ∀ fuel start rs, windowLoop len S step fuel start = some rs →
      List.Chain' (fun a b : ℕ × ℕ => b.1 ≤ a.2) rs := by
  intro fuel
  induction fuel with
  | zero => intro start rs hw; simp [windowLoop] at hw
  | succ f ih =>
    intro start rs hw
    by_cases hc : start < len
    · obtain ⟨rest, hrest, hrs⟩ := windowLoop_cons_of_lt len S step f start hc hw
      subst hrs
      rw [List.chain'_cons']
      refine ⟨?_, ih (start + step) rest hrest⟩
      intro y hy
      by_cases hnext : start + step < len
      · rw [windowLoop_head len S step f (start + step) hnext hrest] at hy
        simp only [Option.mem_def, Option.some_inj] at hy
        subst hy
        simp only
        omega
      · rw [windowLoop_nil_of_le len S step f (start + step) (by omega) hrest] at hy
        simp at hy
    · rw [windowLoop_nil_of_le len S step (f + 1) start (by omega) hw]
      exact List.chain'_nil

lemma windowLoop_single (len S step fuel : ℕ) (h0 : 0 < len) (hstep : len ≤ step)
    (hfuel : 2 ≤ fuel) : windowLoop len S step fuel 0 = some [(0, min S len)] := by
  obtain ⟨f, rfl⟩ : ∃ f, fuel = f + 2 := ⟨fuel - 2, by omega⟩
  have h1 : ¬ step < len := by omega
  simp [windowLoop, h0, h1]

lemma windowLoop_stuck (len S : ℕ) (h0 : 0 < len) :
    ∀ fuel, windowLoop len S 0 fuel 0 = none := by
  intro fuel
  induction fuel with
  | zero => rfl
  | succ f ih => simp [windowLoop, h0, ih]

/-- `QueryOptions` from `src/types/index.ts` (all fields optional). -/
structure QueryOptions where
  limit : Option ℕ
  threshold : Option ℝ
  filter : Option MetadataFilter
  includeMetadata : Option Bool

/-- The destructuring
`const { limit = 10, threshold = 0.0, includeMetadata = true } = options ?? {}`
of `RetrievalPipeline.query`: the applied limit, threshold and
include-metadata flag. -/
noncomputable def resolveQueryOptions (options : Option QueryOptions) :
    ℕ × ℝ × Bool :=
  ((options.bind (·.limit)).getD 10,
   (options.bind (·.threshold)).getD 0,
   (options.bind (·.includeMetadata)).getD true)

/-- The thrown error messages of the sources. -/
def storeErrorMessage : StoreError → String
  | .missingEmbedding id => "Document " ++ id ++ " is missing embedding vector"
  | .dimensionMismatch e g =>
    "Embedding dimension mismatch: expected " ++ toString e ++ ", got " ++ toString g
  | .invalidQuery => "Query must be an embedding vector for in-memory store"
  | .notFound id => "Document " ++ id ++ " not found"
  | .noEmbedding id => "Document " ++ id ++ " has no embedding"

/-- `RetrievalPipeline.query` (result list; context-string assembly and wall
clock timing are presentation-only and not embedded): embed the query text,
search with the resolved limit and filter, then apply the score threshold
pipeline-side. -/
noncomputable def RetrievalPipeline.query
    (embedder : List String → Except String (List (List ℚ)))
    (st : InMemoryVectorStore) (q : String) (options : Option QueryOptions) :
    Except String (List SearchResult) :=
  let r := resolveQueryOptions options
  match embedder [q] with
  | .error m => .error m
  | .ok embs =>
    match embs[0]? with
    | none => .error (storeErrorMessage .invalidQuery)
    | some v =>
      match st.search (.vec v) r.1 (options.bind (·.filter)) with
      | .error e => .error (storeErrorMessage e)
      | .ok rs => .ok (rs.filter (fun x => decide (r.2.1 ≤ x.score)))

/-- `RetrievalPipeline.findSimilar` (result list): look up the chunk and its
embedding (failing with the not-found / no-embedding errors), search with
`limit + 1`, drop the chunk itself, apply the threshold, truncate to `limit`. -/
noncomputable def RetrievalPipeline.findSimilar (st : InMemoryVectorStore)
    (documentId : String) (options : Option QueryOptions) :
    Except StoreError (List SearchResult) :=
  match st.getDocument documentId with
  | none => .error (.notFound documentId)
  | some document =>
    match document.embedding with
    | none => .error (.noEmbedding documentId)
    | some emb =>
      let r := resolveQueryOptions options
      match st.search (.vec emb) (r.1 + 1) (options.bind (·.filter)) with
      | .error e => .error e
      | .ok searchResults =>
        .ok (((searchResults.filter
            (fun x => decide (¬(x.document.id = documentId)))).filter
            (fun x => decide (r.2.1 ≤ x.score))).take r.1)

/-- The external collaborators consumed by `IngestionPipeline`: a loader and
an embedder, each of which may fail (throw) with a message. -/
structure IngestEnv where
  loader : String → Except String (List Document)
  embedder : List String → Except String (List (List ℚ))

/-- Attach `embeddings[j]` to `chunks[j]` (`undefined`, i.e. `none`, when the
embedder returned fewer vectors than chunks). -/
def attachEmbeddings (chunks : List DocumentChunk) (embs : List (List ℚ)) :
    List DocumentChunk :=
  chunks.enum.map fun p => { p.2 with embedding := embs[p.1]? }

/-- `IngestionPipeline.processDocuments`: chunk every document, embed all the
chunk texts in one embedder call, attach the embeddings. -/
def IngestionPipeline.processDocuments (env : IngestEnv) (docs : List Document) :
    Except String (List DocumentChunk) :=
  let chunks := docs.flatMap IngestionPipeline.chunkDocument
  match env.embedder (chunks.map (·.content)) with
  | .error m => .error m
  | .ok embs => .ok (attachEmbeddings chunks embs)

/-- The batch step of `documents.slice(j, j + batchSize)`: the recursion is
driven by the length of the remaining list (each step drops at least
`max (bs - 1) 0` elements besides the head, so the length bounds the number
of iterations). -/
def sliceBatchesAux (bs : ℕ) : ℕ → List Document → List (List Document)
  | 0, _ => []
  | _, [] => []
  | n + 1, d :: rest =>
    (d :: rest.take (bs - 1)) :: sliceBatchesAux bs n (rest.drop (bs - 1))

/-- `documents.slice(j, j + batchSize)` batching of the ingest loop. -/
def sliceBatches (bs : ℕ) (docs : List Document) : List (List Document) :=
  sliceBatchesAux bs docs.length docs

/-- Process the batches of one path in order, accumulating their chunks; the
first embedder failure aborts the path. -/
def IngestionPipeline.processBatches (env : IngestEnv) :
    List (List Document) → Except String (List DocumentChunk)
  | [] => .ok []
  | b :: rest =>
    match IngestionPipeline.processDocuments env b with
    | .error m => .error m
    | .ok cs =>
      match IngestionPipeline.processBatches env rest with
      | .error m => .error m
      | .ok more => .ok (cs ++ more)

/-- The observable outcome of one path of the ingest loop: the number of
documents counted (`totalDocuments` is incremented as soon as the load
succeeds), the number of chunks counted (only on full success), the store
afterwards, and the caught error message, if any. -/
structure PathOutcome where
  docs : ℕ
  chunks : ℕ
  store : InMemoryVectorStore
  err : Option String

/-- The `try` body of `IngestionPipeline.ingest` for one path. -/
def runPath (env : IngestEnv) (bs : ℕ) (st : InMemoryVectorStore) (path : String) :
    PathOutcome :=
  match env.loader path with
  | .error m => ⟨0, 0, st, some m⟩
  | .ok docs =>
    match IngestionPipeline.processBatches env (sliceBatches bs docs) with
    | .error m => ⟨docs.length, 0, st, some m⟩
    | .ok allChunks =>
      match st.addDocuments allChunks with
      | (st', some e) => ⟨docs.length, 0, st', some (storeErrorMessage e)⟩
      | (st', none) => ⟨docs.length, allChunks.length, st', none⟩

/-- One `{ file, error }` entry of the ingestion result's `errors` list. -/
structure IngestErrorEntry where
  file : String
  error : String
deriving DecidableEq

/-- `IngestionResult` (without the wall-clock `durationMs`). -/
structure IngestionResult where
  documentsProcessed : ℕ
  chunksGenerated : ℕ
  errors : List IngestErrorEntry
deriving DecidableEq

/-- The path loop of `ingest`: a caught failure appends an error entry and the
loop continues with the next path. -/
def ingestLoop (env : IngestEnv) (bs : ℕ) :
    List String → ℕ → ℕ → List IngestErrorEntry → InMemoryVectorStore →
    IngestionResult × InMemoryVectorStore
  | [], td, tc, errs, st => (⟨td, tc, errs⟩, st)
  | p :: rest, td, tc, errs, st =>
    let o := runPath env bs st p
    match o.err with
    | none => ingestLoop env bs rest (td + o.docs) (tc + o.chunks) errs o.store
    | some m =>
      ingestLoop env bs rest (td + o.docs) (tc + o.chunks) (errs ++ [⟨p, m⟩]) o.store

/-- `IngestionPipeline.ingest`: always returns a result; per-path failures are
collected in `errors`. -/
def IngestionPipeline.ingest (env : IngestEnv) (st : InMemoryVectorStore)
    (paths : List String) (bs : ℕ) : IngestionResult × InMemoryVectorStore :=
  ingestLoop env bs paths 0 0 [] st

/-- An ingestion environment whose loader yields one document on `"bad"` and
no documents elsewhere, and whose embedder throws on every non-empty batch:
processing `"bad"` fails at the embedding step (after its documents were
counted). -/
def envEmbedFail : IngestEnv :=
  ⟨fun s => if s = "bad" then Except.ok [⟨"doc1", "hello", [], none⟩] else Except.ok [],
   fun ts => if ts = [] then Except.ok [] else Except.error "embedfail"⟩

/-- An ingestion environment whose loader yields one document on `"bad"` and
whose embedder returns no vectors, so the produced chunk reaches
`addDocuments` without an embedding: processing `"bad"` fails at the store
step with the missing-embedding error. -/
def envStoreFail : IngestEnv :=
  ⟨fun s => if s = "bad" then Except.ok [⟨"doc1", "hello", [], none⟩] else Except.ok [],
   fun _ => Except.ok []⟩

lemma sortLE_trans (a b c : SearchResult) (hab : sortLE a b = true)
    (hbc : sortLE b c = true) : sortLE a c = true := by
  simp only [sortLE, decide_eq_true_eq] at *
  exact le_trans hbc hab

lemma sortLE_total (a b : SearchResult) : (sortLE a b || sortLE b a) = true := by
  simp only [sortLE, Bool.or_eq_true, decide_eq_true_eq]
  exact le_total b.score a.score

lemma searchCandidate_eq_some {metric : DistanceMetric} {q : List ℚ}
    {filter : Option MetadataFilter} {doc : DocumentChunk} {r : SearchResult}
    (h : searchCandidate metric q filter doc = some r) :
    r.document = doc ∧ doc.embedding ≠ none ∧
      ∀ f, filter = some f → InMemoryVectorStore.matchesFilter doc f = true := by
  unfold searchCandidate at h
  split at h
  · cases he : doc.embedding with
    | none => rw [he] at h; exact absurd h (by simp)
    | some emb =>
      rw [he] at h
      simp only [Option.some_inj] at h
      subst h
      refine ⟨rfl, by simp [he], ?_⟩
      intro f hf
      subst hf
      simpa using by assumption
  · exact absurd h (by simp)

/-- C1: for every store contents, query vector, limit and optional filter,
`InMemoryVectorStore.search` returns at most `limit` results, sorted in
descending order of score, and every result is a stored chunk that has an
embedding and matches the filter (no embedding-less or filtered-out chunk
ever appears). -/
theorem c1_search_sorted_truncated_sound (st : InMemoryVectorStore) (q : List ℚ)
    (limit : ℕ) (filter : Option MetadataFilter) :
    (st.searchVec q limit filter).length ≤ limit ∧
    (st.searchVec q limit filter).Sorted (fun a b => b.score ≤ a.score) ∧
    ∀ r ∈ st.searchVec q limit filter, ∃ p ∈ st.documents,
      r.document = p.2 ∧ r.document.embedding ≠ none ∧
      ∀ f, filter = some f →
        InMemoryVectorStore.matchesFilter r.document f = true := by
  refine ⟨List.length_take_le _ _, ?_, ?_⟩
  · have hs := List.sorted_mergeSort sortLE_trans sortLE_total
      ((st.documents.map (·.2)).filterMap
        (searchCandidate st.config.distanceMetric q filter))
    have hp := hs.sublist (List.take_sublist limit _)
    exact hp.imp (fun h => by
      simpa [sortLE, decide_eq_true_eq] using h)
  · intro r hr
    have hr' := List.mem_of_mem_take hr
    rw [List.mem_mergeSort] at hr'
    obtain ⟨d, hd, hcand⟩ := List.mem_filterMap.mp hr'
    obtain ⟨p, hp, hpd⟩ := List.mem_map.mp hd
    obtain ⟨hdoc, hemb, hfil⟩ := searchCandidate_eq_some hcand
    subst hpd
    exact ⟨p, hp, hdoc, hdoc ▸ hemb, fun f hf => hdoc ▸ hfil f hf⟩

/-- C2 counterexample: `addDocuments` validates each chunk just before
inserting it, so a batch whose second chunk is invalid fails only after the
first chunk has already been inserted: the call errors with
`MissingEmbedding` yet the document count has grown from 0 to 1. -/
theorem c2_counterexample :
    ((InMemoryVectorStore.empty ⟨"t", 2, .cosine⟩).addDocuments
        [⟨"g", "dg", "cg", 0, [], some [1, 0]⟩, ⟨"b", "db", "cb", 0, [], none⟩]).2 =
      some (.missingEmbedding "b") ∧
    ((InMemoryVectorStore.empty ⟨"t", 2, .cosine⟩).addDocuments
        [⟨"g", "dg", "cg", 0, [], some [1, 0]⟩, ⟨"b", "db", "cb", 0, [], none⟩]).1.documentCount
      = 1 ∧
    (InMemoryVectorStore.empty ⟨"t", 2, .cosine⟩).documentCount = 0 := by
  decide

/-- A chunk passing `addDocuments`' per-chunk validation: an embedding is
present and its length equals the configured dimensions. -/
def chunkValid (dims : ℕ) (d : DocumentChunk) : Bool :=
  match d.embedding with
  | none => false
  | some e => e.length = dims

/-- Upsert a list of chunks into the backing map, in order. -/
def insertAll (st : InMemoryVectorStore) (ds : List DocumentChunk) :
    InMemoryVectorStore :=
  ds.foldl (fun s d => { s with documents := mapSet d.id d s.documents }) st

/-- C2 (amended): a batch containing an invalid chunk (missing embedding or
wrong dimension) makes `addDocuments` fail, and the store afterwards is the
original with exactly the chunks preceding the first invalid chunk upserted;
in particular the store is unchanged only when the first offending chunk is
at the head of the batch. -/
theorem c2_addDocuments_fails_after_valid_prefix (st : InMemoryVectorStore)
    (batch : List DocumentChunk)
    (h : batch.all (chunkValid st.config.embeddingDimensions) = false) :
    (st.addDocuments batch).2.isSome = true ∧
    (st.addDocuments batch).1 =
      insertAll st (batch.takeWhile (chunkValid st.config.embeddingDimensions)) := by
  induction batch generalizing st with
  | nil => simp at h
  | cons d rest ih =>
    by_cases hd : chunkValid st.config.embeddingDimensions d = true
    · cases he : d.embedding with
      | none => rw [chunkValid, he] at hd; exact absurd hd (by simp)
      | some e =>
        rw [chunkValid, he] at hd
        simp only [decide_eq_true_eq] at hd
        have hrest : rest.all (chunkValid st.config.embeddingDimensions) = false := by
          simp only [List.all_cons, Bool.and_eq_false_iff] at h
          rcases h with h | h
          · rw [chunkValid, he] at h; simp [hd] at h
          · exact h
        have hcfg :
            ({ st with documents := mapSet d.id d st.documents } :
              InMemoryVectorStore).config = st.config := rfl
        have := ih { st with documents := mapSet d.id d st.documents }
          (by rw [hcfg]; exact hrest)
        simp only [InMemoryVectorStore.addDocuments, he, if_pos hd]
        rw [List.takeWhile_cons_of_pos (by rw [chunkValid, he]; simp [hd])]
        exact this
    · simp only [Bool.not_eq_true] at hd
      rw [List.takeWhile_cons_of_neg (by simp [hd])]
      cases he : d.embedding with
      | none =>
        simp [InMemoryVectorStore.addDocuments, he, insertAll]
      | some e =>
        have hne : ¬ e.length = st.config.embeddingDimensions := by
          rw [chunkValid, he] at hd
          simpa using hd
        simp [InMemoryVectorStore.addDocuments, he, hne, insertAll]

/-- Witness for `c2_addDocuments_fails_after_valid_prefix` at a concrete
two-chunk batch whose second chunk lacks an embedding. -/
theorem c2_witness :
    ([(⟨"g", "dg", "cg", 0, [], some [1, 0]⟩ : DocumentChunk),
      ⟨"b", "db", "cb", 0, [], none⟩].all
        (chunkValid (InMemoryVectorStore.empty ⟨"t", 2, .cosine⟩).config.embeddingDimensions)
      = false) ∧
    (((InMemoryVectorStore.empty ⟨"t", 2, .cosine⟩).addDocuments
        [⟨"g", "dg", "cg", 0, [], some [1, 0]⟩, ⟨"b", "db", "cb", 0, [], none⟩]).2.isSome
      = true ∧
     ((InMemoryVectorStore.empty ⟨"t", 2, .cosine⟩).addDocuments
        [⟨"g", "dg", "cg", 0, [], some [1, 0]⟩, ⟨"b", "db", "cb", 0, [], none⟩]).1 =
       insertAll (InMemoryVectorStore.empty ⟨"t", 2, .cosine⟩)
         ([⟨"g", "dg", "cg", 0, [], some [1, 0]⟩,
           ⟨"b", "db", "cb", 0, [], none⟩].takeWhile
           (chunkValid
             (InMemoryVectorStore.empty ⟨"t", 2, .cosine⟩).config.embeddingDimensions))) :=
  ⟨by decide,
   c2_addDocuments_fails_after_valid_prefix (InMemoryVectorStore.empty ⟨"t", 2, .cosine⟩)
     [⟨"g", "dg", "cg", 0, [], some [1, 0]⟩, ⟨"b", "db", "cb", 0, [], none⟩]
     (by decide)⟩

/-- A public mutating operation of the store's CRUD surface. -/
inductive StoreOp
  | add (docs : List DocumentChunk)
  | update (id : String) (u : ChunkUpdate)
  | delete (ids : List String)
  | clearOp

/-- Apply a public operation to the store (search/get do not mutate). -/
def applyOp (st : InMemoryVectorStore) : StoreOp → InMemoryVectorStore
  | .add ds => (st.addDocuments ds).1
  | .update id u => (st.updateDocument id u).1
  | .delete ids => st.deleteDocuments ids
  | .clearOp => st.clear

/-- C3 counterexample: starting from a fresh store with dimension 2, adding a
valid chunk and then updating it with a length-1 embedding leaves a stored
chunk whose embedding length is 1 ≠ 2: `updateDocument` performs no
dimension validation. -/
theorem c3_counterexample :
    (([StoreOp.add [⟨"g", "dg", "cg", 0, [], some [1, 0]⟩],
       StoreOp.update "g" ⟨none, none, none, none, none, some [1]⟩].foldl applyOp
        (InMemoryVectorStore.empty ⟨"t", 2, .cosine⟩)).documents.all
      (fun p => chunkValid 2 p.2)) = false ∧
    ((([StoreOp.add [⟨"g", "dg", "cg", 0, [], some [1, 0]⟩],
        StoreOp.update "g" ⟨none, none, none, none, none, some [1]⟩].foldl applyOp
         (InMemoryVectorStore.empty ⟨"t", 2, .cosine⟩)).getDocument "g").bind
      (·.embedding)) = some [1] := by
  decide

/-- An operation that cannot plant a wrong-sized embedding: any update that
supplies an embedding supplies one of the configured length.  (All other
operations are unconditionally safe.) -/
def embeddingSafe (dims : ℕ) : StoreOp → Prop
  | .update _ u => ∀ e, u.embedding = some e → e.length = dims
  | _ => True

/-- Every chunk held in the store has an embedding of the configured length. -/
def storeWF (st : InMemoryVectorStore) : Prop :=
  ∀ p ∈ st.documents, chunkValid st.config.embeddingDimensions p.2 = true

lemma mapSet_mem {m : List (String × DocumentChunk)} {k : String}
    {v : DocumentChunk} {p : String × DocumentChunk} (h : p ∈ mapSet k v m) :
    p = (k, v) ∨ p ∈ m := by
  induction m with
  | nil => simpa [mapSet] using h
  | cons q rest ih =>
    rw [mapSet] at h
    split at h
    · rcases List.mem_cons.mp h with h | h
      · exact Or.inl h
      · exact Or.inr (List.mem_cons_of_mem _ h)
    · rcases List.mem_cons.mp h with h | h
      · exact Or.inr (h ▸ List.mem_cons_self _ _)
      · rcases ih h with h | h
        · exact Or.inl h
        · exact Or.inr (List.mem_cons_of_mem _ h)

lemma addDocuments_config (st : InMemoryVectorStore) (ds : List DocumentChunk) :
    (st.addDocuments ds).1.config = st.config := by
  induction ds generalizing st with
  | nil => rfl
  | cons d rest ih =>
    rw [InMemoryVectorStore.addDocuments]
    cases d.embedding with
    | none => rfl
    | some e =>
      by_cases hl : e.length = st.config.embeddingDimensions
      · simpa [hl] using ih { st with documents := mapSet d.id d st.documents }
      · simp [hl]

lemma addDocuments_wf (st : InMemoryVectorStore) (ds : List DocumentChunk)
    (h : storeWF st) : storeWF (st.addDocuments ds).1 := by
  induction ds generalizing st with
  | nil => exact h
  | cons d rest ih =>
    rw [InMemoryVectorStore.addDocuments]
    cases he : d.embedding with
    | none => exact h
    | some e =>
      by_cases hl : e.length = st.config.embeddingDimensions
      · simp only [if_pos hl]
        refine ih { st with documents := mapSet d.id d st.documents } ?_
        intro p hp
        rcases mapSet_mem hp with hp | hp
        · subst hp
          simp only [chunkValid, he]
          simpa using hl
        · exact h p hp
      · simpa [hl] using h

lemma updateDocument_wf (st : InMemoryVectorStore) (id : String) (u : ChunkUpdate)
    (hu : ∀ e, u.embedding = some e → e.length = st.config.embeddingDimensions)
    (h : storeWF st) : storeWF (st.updateDocument id u).1 := by
  rw [InMemoryVectorStore.updateDocument]
  cases hg : mapGet st.documents id with
  | none => exact h
  | some existing =>
    intro p hp
    rcases mapSet_mem hp with hp | hp
    · subst hp
      have hex : (id, existing) ∈ st.documents ∨ chunkValid
          st.config.embeddingDimensions existing = true := by
        unfold mapGet at hg
        cases hf : st.documents.find? (fun p => p.1 = id) with
        | none => rw [hf] at hg; simp at hg
        | some q =>
          rw [hf] at hg
          simp only [Option.map_some', Option.some_inj] at hg
          have hq := List.mem_of_find?_eq_some hf
          have hq2 := h q hq
          exact Or.inr (hg ▸ hq2)
      have hexv : chunkValid st.config.embeddingDimensions existing = true := by
        rcases hex with hex | hex
        · exact h _ hex
        · exact hex
      simp only [chunkValid, applyUpdate]
      cases hue : u.embedding with
      | some e => simpa using hu e hue
      | none =>
        simp only
        rw [chunkValid] at hexv
        exact hexv
    · exact h p hp

lemma deleteDocuments_wf (st : InMemoryVectorStore) (ids : List String)
    (h : storeWF st) : storeWF (st.deleteDocuments ids) := by
  have : ∀ (l : List String) (m : List (String × DocumentChunk)) p,
      p ∈ l.foldl (fun m id => mapDelete m id) m → p ∈ m := by
    intro l
    induction l with
    | nil => intro m p hp; exact hp
    | cons i rest ih =>
      intro m p hp
      have := ih (mapDelete m i) p hp
      exact List.mem_of_mem_filter this
  intro p hp
  exact h p (this ids st.documents p hp)

lemma applyOp_config (st : InMemoryVectorStore) (op : StoreOp) :
    (applyOp st op).config = st.config := by
  cases op with
  | add ds => exact addDocuments_config st ds
  | update id u =>
    rw [applyOp, InMemoryVectorStore.updateDocument]
    cases mapGet st.documents id <;> rfl
  | delete ids => rfl
  | clearOp => rfl

lemma applyOp_wf (st : InMemoryVectorStore) (op : StoreOp)
    (hop : embeddingSafe st.config.embeddingDimensions op)
    (h : storeWF st) : storeWF (applyOp st op) := by
  cases op with
  | add ds => exact addDocuments_wf st ds h
  | update id u => exact updateDocument_wf st id u hop h
  | delete ids => exact deleteDocuments_wf st ids h
  | clearOp => intro p hp; simp [applyOp, InMemoryVectorStore.clear] at hp

lemma foldl_applyOp_wf (ops : List StoreOp) :
    ∀ st : InMemoryVectorStore,
      (∀ op ∈ ops, embeddingSafe st.config.embeddingDimensions op) →
      storeWF st →
      storeWF (ops.foldl applyOp st) ∧
        (ops.foldl applyOp st).config = st.config := by
  induction ops with
  | nil => intro st _ h; exact ⟨h, rfl⟩
  | cons op rest ih =>
    intro st hops h
    have hc := applyOp_config st op
    have hwf := applyOp_wf st op (hops op (List.mem_cons_self _ _)) h
    have := ih (applyOp st op)
      (by intro o ho; rw [hc]; exact hops o (List.mem_cons_of_mem _ ho)) hwf
    exact ⟨this.1, this.2.trans hc⟩

/-- C3 (amended): starting from a freshly constructed empty store, after any
sequence of the public operations in which every `updateDocument` that
supplies an embedding supplies one of the configured length, every stored
chunk has an embedding of exactly the configured length.  (An update carrying
a wrong-length embedding can break the invariant — see the counterexample.) -/
theorem c3_invariant_under_safe_ops (cfg : VectorStoreConfig) (ops : List StoreOp)
    (h : ∀ op ∈ ops, embeddingSafe cfg.embeddingDimensions op) :
    ∀ p ∈ (ops.foldl applyOp (InMemoryVectorStore.empty cfg)).documents,
      chunkValid cfg.embeddingDimensions p.2 = true := by
  have := foldl_applyOp_wf ops (InMemoryVectorStore.empty cfg) h
    (by intro p hp; simp [InMemoryVectorStore.empty] at hp)
  intro p hp
  have hwf := this.1 p hp
  rw [this.2] at hwf
  exact hwf

/-- Witness for `c3_invariant_under_safe_ops` at a concrete operation
sequence: add two chunks, delete one, update the other without touching its
embedding. -/
theorem c3_witness :
    (∀ op ∈ [StoreOp.add [⟨"g", "dg", "cg", 0, [], some [1, 0]⟩,
                          ⟨"h", "dh", "ch", 0, [], some [0, 1]⟩],
             StoreOp.delete ["g"],
             StoreOp.update "h" ⟨none, none, some "new", none, none, none⟩],
        embeddingSafe 2 op) ∧
    ∀ p ∈ ([StoreOp.add [⟨"g", "dg", "cg", 0, [], some [1, 0]⟩,
                         ⟨"h", "dh", "ch", 0, [], some [0, 1]⟩],
            StoreOp.delete ["g"],
            StoreOp.update "h" ⟨none, none, some "new", none, none, none⟩].foldl
        applyOp (InMemoryVectorStore.empty ⟨"t", 2, .cosine⟩)).documents,
      chunkValid 2 p.2 = true :=
  ⟨by
    intro op hop
    fin_cases hop
    · exact trivial
    · exact trivial
    · intro e he; simp at he,
   c3_invariant_under_safe_ops ⟨"t", 2, .cosine⟩ _
    (by
      intro op hop
      fin_cases hop
      · exact trivial
      · exact trivial
      · intro e he; simp at he)⟩

/-- C4 counterexample: `TextLoader.chunkDocument` writes `chunkIndex`,
`startChar`, `endChar` and `parentDocumentId` into each chunk's metadata but
never a `chunkCount` key, so "every produced chunk's metadata.chunkCount
equals the total number of chunks" fails at content `"ab"`, `S = 1`, `O = 0`
(two chunks, no `chunkCount` on either). -/
theorem c4_counterexample :
    (TextLoader.chunkDocument ⟨"d", "ab", [], none⟩ 1 0).length = 2 ∧
    ((TextLoader.chunkDocument ⟨"d", "ab", [], none⟩ 1 0).map
      (fun c => c.metadata.lookup "chunkCount")) = [none, none] := by
  decide

/-- C4 (amended): for all `len`, `S ≥ 1`, `O < S` the `[startChar, endChar)`
ranges of `TextLoader.chunkDocument` cover `[0, len)` exactly — every
position is covered, ranges stay within bounds, the first range starts at 0,
the last ends at `len`, and each next start is at most the previous end —
and the pipeline chunker `IngestionPipeline.chunkDocument` stamps every
chunk's `chunkCount` with the total number of produced chunks.
(`TextLoader` chunks carry no `chunkCount` key — see the counterexample.) -/
theorem c4_window_coverage (len S O : ℕ) (hS : 1 ≤ S) (hO : O < S) (doc : Document) :
    (∃ rs, textChunkRanges len S O = some rs ∧
      (∀ k, k < len → ∃ r ∈ rs, r.1 ≤ k ∧ k < r.2) ∧
      (∀ r ∈ rs, r.1 < len ∧ r.2 ≤ len) ∧
      (0 < len → rs.head?.map (·.1) = some 0 ∧ rs.getLast?.map (·.2) = some len) ∧
      List.Chain' (fun a b : ℕ × ℕ => b.1 ≤ a.2) rs) ∧
    ∀ c ∈ IngestionPipeline.chunkDocument doc,
      c.metadata.lookup "chunkCount" =
        some (.scalar (.num ((IngestionPipeline.chunkDocument doc).length : ℚ))) := by
  constructor
  · have hmin : min O (S - 1) = O := by omega
    have hstep1 : 1 ≤ S - min O (S - 1) := by omega
    have hstepS : S - min O (S - 1) ≤ S := by omega
    have hsome := windowLoop_isSome len S (S - min O (S - 1)) hstep1 (len + 1) 0
      (by omega)
    obtain ⟨rs, hrs⟩ := Option.isSome_iff_exists.mp hsome
    refine ⟨rs, hrs, ?_, ?_, ?_, ?_⟩
    · intro k hk
      exact windowLoop_covers len S _ hstepS (len + 1) 0 rs hrs k (Nat.zero_le k) hk
    · intro r hr
      have := windowLoop_mem_bounds len S _ (len + 1) 0 rs hrs r hr
      exact ⟨this.2.1, this.2.2 ▸ min_le_right _ _⟩
    · intro hlen
      constructor
      · rw [windowLoop_head len S _ (len + 1) 0 hlen hrs]
        rfl
      · exact windowLoop_getLast len S _ hstepS (len + 1) 0 rs hrs hlen
    · exact windowLoop_chain len S _ hstepS (len + 1) 0 rs hrs
  · intro c hc
    simp only [IngestionPipeline.chunkDocument] at hc ⊢
    obtain ⟨c0, hc0, hceq⟩ := List.mem_map.mp hc
    subst hceq
    simp only [List.length_map]
    rfl

/-- Witness for `c4_window_coverage` at `len = 5`, `S = 3`, `O = 1` and a
concrete two-range document for the pipeline chunker. -/
theorem c4_witness :
    ((1 : ℕ) ≤ 3 ∧ (1 : ℕ) < 3) ∧
    ((∃ rs, textChunkRanges 5 3 1 = some rs ∧
      (∀ k, k < 5 → ∃ r ∈ rs, r.1 ≤ k ∧ k < r.2) ∧
      (∀ r ∈ rs, r.1 < 5 ∧ r.2 ≤ 5) ∧
      (0 < 5 → rs.head?.map (·.1) = some 0 ∧ rs.getLast?.map (·.2) = some 5) ∧
      List.Chain' (fun a b : ℕ × ℕ => b.1 ≤ a.2) rs) ∧
    ∀ c ∈ IngestionPipeline.chunkDocument ⟨"d", "hello", [], none⟩,
      c.metadata.lookup "chunkCount" =
        some (.scalar (.num ((IngestionPipeline.chunkDocument
          ⟨"d", "hello", [], none⟩).length : ℚ)))) :=
  ⟨⟨by decide, by decide⟩,
   c4_window_coverage 5 3 1 (by decide) (by decide) ⟨"d", "hello", [], none⟩⟩

/-- C5 counterexample: for content `"ab"` (length 2 ≤ S = 2) with `O = 1`
(`0 ≤ O < S`), `TextLoader.chunkDocument` produces TWO chunks (`[0,2)` and
`[1,2)`), not exactly one: the loop keeps running while `start < len`, and
after the first window `start` advances only to `S - O = 1 < 2`. -/
theorem c5_counterexample :
    (TextLoader.chunkDocument ⟨"d", "ab", [], none⟩ 2 1).length = 2 := by
  decide

/-- C5 (amended): exactly one chunk — spanning the whole content with
`chunkIndex = 0`, `startChar = 0`, `endChar = len` — is produced precisely
when the non-empty content is no longer than the advance step, i.e.
`len(C) ≤ S - O` (for `len(C)` with `S - O < len(C) ≤ S` the loop produces
additional trailing chunks). -/
theorem c5_single_chunk (doc : Document) (S O : ℕ) (hS : 1 ≤ S) (hO : O < S)
    (h0 : 0 < doc.content.length) (hlen : doc.content.length ≤ S - O) :
    (TextLoader.chunkDocument doc S O).length = 1 ∧
    ∀ c ∈ TextLoader.chunkDocument doc S O,
      c.metadata.lookup "chunkIndex" = some (.scalar (.num 0)) ∧
      c.metadata.lookup "startChar" = some (.scalar (.num 0)) ∧
      c.metadata.lookup "endChar" =
        some (.scalar (.num (doc.content.length : ℚ))) := by
  have hstep : doc.content.length ≤ S - min O (S - 1) := by omega
  have hrs : textChunkRanges doc.content.length S O =
      some [(0, min S doc.content.length)] :=
    windowLoop_single doc.content.length S _ (doc.content.length + 1) h0 hstep
      (by omega)
  have hminS : min S doc.content.length = doc.content.length := by omega
  rw [hminS] at hrs
  unfold TextLoader.chunkDocument
  rw [hrs]
  refine ⟨rfl, ?_⟩
  intro c hc
  simp only [Option.getD_some, List.enum_cons, List.enumFrom, List.map_cons,
    List.map_nil, List.mem_singleton] at hc
  subst hc
  refine ⟨?_, ?_, ?_⟩
  · simp [List.lookup]
  · simp [List.lookup]
  · simp [List.lookup]

/-- Witness for `c5_single_chunk` at content `"a"`, `S = 2`, `O = 1`. -/
theorem c5_witness :
    ((1 : ℕ) ≤ 2 ∧ (1 : ℕ) < 2 ∧ 0 < ("a" : String).length ∧
      ("a" : String).length ≤ 2 - 1) ∧
    ((TextLoader.chunkDocument ⟨"d", "a", [], none⟩ 2 1).length = 1 ∧
     ∀ c ∈ TextLoader.chunkDocument ⟨"d", "a", [], none⟩ 2 1,
       c.metadata.lookup "chunkIndex" = some (.scalar (.num 0)) ∧
       c.metadata.lookup "startChar" = some (.scalar (.num 0)) ∧
       c.metadata.lookup "endChar" =
         some (.scalar (.num ((⟨"d", "a", [], none⟩ : Document).content.length : ℚ)))) :=
  ⟨⟨by decide, by decide, by decide, by decide⟩,
   c5_single_chunk ⟨"d", "a", [], none⟩ 2 1 (by decide) (by decide) (by decide)
     (by decide)⟩

/-- C6: `MarkdownLoader.chunkText` does NOT clamp the overlap: when the caller
supplies `chunkOverlap ≥ chunkSize` its loop advances by 0 and never
terminates — for text `"ab"`, `S = 1`, `O = 1` no iteration budget completes
the loop.  By contrast `TextLoader.chunkDocument` clamps the overlap to
`S - 1` and its loop always finishes within `len + 1` iterations. -/
theorem c6_markdown_no_clamp_diverges :
    (∀ fuel, MarkdownLoader.chunkTextFuel fuel "ab" 1 1 = none) ∧
    (∀ len S O, 1 ≤ S → (textChunkRanges len S O).isSome = true) := by
  constructor
  · intro fuel
    have hlen : ("ab" : String).length = 2 := rfl
    unfold MarkdownLoader.chunkTextFuel
    rw [hlen]
    have h1 : (1 : ℕ) - 1 = 0 := rfl
    rw [h1, windowLoop_stuck 2 1 (by omega) fuel]
    rfl
  · intro len S O hS
    exact windowLoop_isSome len S _ (by omega) (len + 1) 0 (by omega)

/-- Witness for `c6_markdown_no_clamp_diverges`: budget 7 for the diverging
markdown loop; `len = 5`, `S = 3`, `O = 7 ≥ S` for the clamped text loop. -/
theorem c6_witness :
    MarkdownLoader.chunkTextFuel 7 "ab" 1 1 = none ∧
    (textChunkRanges 5 3 7).isSome = true :=
  ⟨c6_markdown_no_clamp_diverges.1 7,
   c6_markdown_no_clamp_diverges.2 5 3 7 (by decide)⟩

/-- C7: score/distance duality per metric — for cosine `distance = 1 - score`,
for dot `distance = -score`, for euclidean `score = 1 / (1 + distance)` —
and for every metric a strictly smaller distance means a strictly larger
score, so ranking by descending score agrees with ranking by ascending
distance. -/
theorem c7_score_distance_duality (m : DistanceMetric) (a b : List ℝ) :
    calculateDistance .cosine a b = 1 - calculateSimilarity .cosine a b ∧
    calculateDistance .dot a b = -(calculateSimilarity .dot a b) ∧
    calculateSimilarity .euclidean a b =
      1 / (1 + calculateDistance .euclidean a b) ∧
    ∀ a' b' : List ℝ, calculateDistance m a b < calculateDistance m a' b' →
      calculateSimilarity m a' b' < calculateSimilarity m a b := by
  refine ⟨rfl, rfl, rfl, ?_⟩
  intro a' b' h
  cases m with
  | cosine =>
    simp only [calculateDistance, calculateSimilarity] at *
    linarith
  | dot =>
    simp only [calculateDistance, calculateSimilarity] at *
    linarith
  | euclidean =>
    simp only [calculateDistance, calculateSimilarity] at *
    have h0 : (0 : ℝ) ≤ euclideanDistance a b := Real.sqrt_nonneg _
    exact one_div_lt_one_div_of_lt (by linarith) (by linarith)

/-- Witness for `c7_score_distance_duality` under the euclidean metric at the
concrete vectors `[0]`, `[0]` (distance 0) and `[0]`, `[1]` (distance 1). -/
theorem c7_witness :
    calculateDistance .euclidean [(0 : ℝ)] [0] <
      calculateDistance .euclidean [(0 : ℝ)] [1] ∧
    calculateSimilarity .euclidean [(0 : ℝ)] [1] <
      calculateSimilarity .euclidean [(0 : ℝ)] [0] := by
  have hlt : calculateDistance .euclidean [(0 : ℝ)] [0] <
      calculateDistance .euclidean [(0 : ℝ)] [1] := by
    simp only [calculateDistance, euclideanDistance, List.zip_cons_cons,
      List.zip_nil_right, List.map_cons, List.map_nil, List.sum_cons,
      List.sum_nil]
    norm_num [Real.sqrt_one]
  exact ⟨hlt,
    (c7_score_distance_duality .euclidean [(0 : ℝ)] [0]).2.2.2 [0] [1] hlt⟩

/-- C8: `findSimilar` fails with the not-found error when no chunk with the
given id exists, fails with the no-embedding error when the chunk has no
embedding, and otherwise returns at most `limit` results none of which is
the queried chunk's id. -/
theorem c8_findSimilar_excludes_self (st : InMemoryVectorStore) (id : String)
    (opts : Option QueryOptions) :
    (st.getDocument id = none →
      RetrievalPipeline.findSimilar st id opts = .error (.notFound id)) ∧
    (∀ c, st.getDocument id = some c → c.embedding = none →
      RetrievalPipeline.findSimilar st id opts = .error (.noEmbedding id)) ∧
    (∀ c e, st.getDocument id = some c → c.embedding = some e →
      ∃ rs, RetrievalPipeline.findSimilar st id opts = .ok rs ∧
        rs.length ≤ (resolveQueryOptions opts).1 ∧
        ∀ r ∈ rs, ¬(r.document.id = id)) := by
  refine ⟨?_, ?_, ?_⟩
  · intro h
    simp [RetrievalPipeline.findSimilar, h]
  · intro c hc hemb
    simp [RetrievalPipeline.findSimilar, hc, hemb]
  · intro c e hc he
    refine ⟨(((st.searchVec e ((resolveQueryOptions opts).1 + 1)
          (opts.bind (·.filter))).filter
          (fun x => decide (¬(x.document.id = id)))).filter
          (fun x => decide ((resolveQueryOptions opts).2.1 ≤ x.score))).take
          (resolveQueryOptions opts).1, ?_, List.length_take_le _ _, ?_⟩
    · simp only [RetrievalPipeline.findSimilar, hc, he]
      rfl
    · intro r hr
      have h1 := List.mem_of_mem_take hr
      have h2 := (List.mem_filter.mp h1).1
      have h3 := (List.mem_filter.mp h2).2
      simpa using h3

/-- Witness for `c8_findSimilar_excludes_self`: a missing id on the empty
store, an embedding-less chunk, and a valid single-chunk store. -/
theorem c8_witness :
    ((InMemoryVectorStore.empty ⟨"t", 2, .cosine⟩).getDocument "x" = none ∧
      RetrievalPipeline.findSimilar (InMemoryVectorStore.empty ⟨"t", 2, .cosine⟩)
        "x" none = .error (.notFound "x")) ∧
    ((⟨⟨"t", 2, .cosine⟩, [("h", ⟨"h", "dh", "ch", 0, [], none⟩)]⟩ :
        InMemoryVectorStore).getDocument "h" = some ⟨"h", "dh", "ch", 0, [], none⟩ ∧
      RetrievalPipeline.findSimilar
        ⟨⟨"t", 2, .cosine⟩, [("h", ⟨"h", "dh", "ch", 0, [], none⟩)]⟩ "h" none =
        .error (.noEmbedding "h")) ∧
    (∃ rs, RetrievalPipeline.findSimilar
        ⟨⟨"t", 2, .cosine⟩, [("g", ⟨"g", "dg", "cg", 0, [], some [1, 0]⟩)]⟩ "g" none =
        .ok rs ∧
      rs.length ≤ (resolveQueryOptions none).1 ∧
      ∀ r ∈ rs, ¬(r.document.id = "g")) :=
  ⟨⟨by decide,
    (c8_findSimilar_excludes_self (InMemoryVectorStore.empty ⟨"t", 2, .cosine⟩)
      "x" none).1 (by decide)⟩,
   ⟨by decide,
    (c8_findSimilar_excludes_self
      ⟨⟨"t", 2, .cosine⟩, [("h", ⟨"h", "dh", "ch", 0, [], none⟩)]⟩ "h" none).2.1
      ⟨"h", "dh", "ch", 0, [], none⟩ (by decide) rfl⟩,
   (c8_findSimilar_excludes_self
      ⟨⟨"t", 2, .cosine⟩, [("g", ⟨"g", "dg", "cg", 0, [], some [1, 0]⟩)]⟩ "g" none).2.2
      ⟨"g", "dg", "cg", 0, [], some [1, 0]⟩ [1, 0] (by decide) rfl⟩

lemma ingestLoop_shift (env : IngestEnv) (bs : ℕ) :
    ∀ (paths : List String) (td tc : ℕ) (errs : List IngestErrorEntry)
      (st : InMemoryVectorStore),
      (ingestLoop env bs paths td tc errs st).1.documentsProcessed =
        td + (ingestLoop env bs paths 0 0 [] st).1.documentsProcessed ∧
      (ingestLoop env bs paths td tc errs st).1.chunksGenerated =
        tc + (ingestLoop env bs paths 0 0 [] st).1.chunksGenerated ∧
      (ingestLoop env bs paths td tc errs st).1.errors =
        errs ++ (ingestLoop env bs paths 0 0 [] st).1.errors ∧
      (ingestLoop env bs paths td tc errs st).2 =
        (ingestLoop env bs paths 0 0 [] st).2 := by
  intro paths
  induction paths with
  | nil => intro td tc errs st; simp [ingestLoop]
  | cons p rest ih =>
    intro td tc errs st
    simp only [ingestLoop]
    cases ho : (runPath env bs st p).err with
    | none =>
      simp only [ho]
      refine ⟨?_, ?_, ?_, ?_⟩
      · rw [(ih _ _ _ _).1,
          (ih (0 + (runPath env bs st p).docs) (0 + (runPath env bs st p).chunks)
            [] (runPath env bs st p).store).1]
        omega
      · rw [(ih _ _ _ _).2.1,
          (ih (0 + (runPath env bs st p).docs) (0 + (runPath env bs st p).chunks)
            [] (runPath env bs st p).store).2.1]
        omega
      · rw [(ih _ _ _ _).2.2.1,
          (ih (0 + (runPath env bs st p).docs) (0 + (runPath env bs st p).chunks)
            [] (runPath env bs st p).store).2.2.1]
        simp
      · rw [(ih _ _ _ _).2.2.2,
          (ih (0 + (runPath env bs st p).docs) (0 + (runPath env bs st p).chunks)
            [] (runPath env bs st p).store).2.2.2]
    | some m =>
      simp only [ho]
      refine ⟨?_, ?_, ?_, ?_⟩
      · rw [(ih _ _ _ _).1,
          (ih (0 + (runPath env bs st p).docs) (0 + (runPath env bs st p).chunks)
            ([] ++ [({ file := p, error := m } : IngestErrorEntry)]) (runPath env bs st p).store).1]
        omega
      · rw [(ih _ _ _ _).2.1,
          (ih (0 + (runPath env bs st p).docs) (0 + (runPath env bs st p).chunks)
            ([] ++ [({ file := p, error := m } : IngestErrorEntry)]) (runPath env bs st p).store).2.1]
        omega
      · rw [(ih _ _ _ _).2.2.1,
          (ih (0 + (runPath env bs st p).docs) (0 + (runPath env bs st p).chunks)
            ([] ++ [({ file := p, error := m } : IngestErrorEntry)]) (runPath env bs st p).store).2.2.1]
        simp
      · rw [(ih _ _ _ _).2.2.2,
          (ih (0 + (runPath env bs st p).docs) (0 + (runPath env bs st p).chunks)
            ([] ++ [({ file := p, error := m } : IngestErrorEntry)]) (runPath env bs st p).store).2.2.2]

lemma runPath_chunks_of_err (env : IngestEnv) (bs : ℕ)
    (st : InMemoryVectorStore) (p : String) (m : String)
    (h : (runPath env bs st p).err = some m) :
    (runPath env bs st p).chunks = 0 := by
  unfold runPath at h ⊢
  cases hl : env.loader p with
  | error m' => simp only [hl]
  | ok docs =>
    simp only [hl] at h ⊢
    cases hb : IngestionPipeline.processBatches env (sliceBatches bs docs) with
    | error m' => simp only [hb]
    | ok allChunks =>
      simp only [hb] at h ⊢
      cases ha : st.addDocuments allChunks with
      | mk st' err' =>
        cases err' with
        | none => rw [ha] at h; simp at h
        | some e => simp only [ha]

lemma ingestLoop_append (env : IngestEnv) (bs : ℕ) :
    ∀ (pre suf : List String) (td tc : ℕ) (errs : List IngestErrorEntry)
      (st : InMemoryVectorStore),
      ingestLoop env bs (pre ++ suf) td tc errs st =
        ingestLoop env bs suf
          (ingestLoop env bs pre td tc errs st).1.documentsProcessed
          (ingestLoop env bs pre td tc errs st).1.chunksGenerated
          (ingestLoop env bs pre td tc errs st).1.errors
          (ingestLoop env bs pre td tc errs st).2 := by
  intro pre
  induction pre with
  | nil => intro suf td tc errs st; rfl
  | cons q qre ih =>
    intro suf td tc errs st
    simp only [List.cons_append, ingestLoop]
    cases ho : (runPath env bs st q).err with
    | none =>
      simp only [ho]
      exact ih suf _ _ _ _
    | some mm =>
      simp only [ho]
      exact ih suf _ _ _ _

/-- C9: `ingest` always returns a result object (it is a total function: the
collaborator and store throws are modeled with `Except` and caught per
path).  Whatever step of a path fails — load, embedding, or storing — and
wherever the path sits in the input list, the failure is recorded as
exactly one `{ file, error }` entry in the returned `errors` list, in
order, and the remaining paths are still loaded, embedded and stored
exactly as they are from the store the failing path left behind; a failing
path contributes no chunks. -/
theorem c9_ingest_catches_any_path_failure (env : IngestEnv) (bs : ℕ)
    (st : InMemoryVectorStore) (pre : List String) (p : String)
    (rest : List String) (m : String)
    (hfail :
      (runPath env bs (IngestionPipeline.ingest env st pre bs).2 p).err = some m) :
    (IngestionPipeline.ingest env st (pre ++ p :: rest) bs).1.errors =
      (IngestionPipeline.ingest env st pre bs).1.errors ++ ⟨p, m⟩ ::
        (IngestionPipeline.ingest env
          (runPath env bs (IngestionPipeline.ingest env st pre bs).2 p).store
          rest bs).1.errors ∧
    (IngestionPipeline.ingest env st (pre ++ p :: rest) bs).2 =
      (IngestionPipeline.ingest env
        (runPath env bs (IngestionPipeline.ingest env st pre bs).2 p).store
        rest bs).2 ∧
    (IngestionPipeline.ingest env st (pre ++ p :: rest) bs).1.documentsProcessed =
      (IngestionPipeline.ingest env st pre bs).1.documentsProcessed +
        (runPath env bs (IngestionPipeline.ingest env st pre bs).2 p).docs +
        (IngestionPipeline.ingest env
          (runPath env bs (IngestionPipeline.ingest env st pre bs).2 p).store
          rest bs).1.documentsProcessed ∧
    (IngestionPipeline.ingest env st (pre ++ p :: rest) bs).1.chunksGenerated =
      (IngestionPipeline.ingest env st pre bs).1.chunksGenerated +
        (IngestionPipeline.ingest env
          (runPath env bs (IngestionPipeline.ingest env st pre bs).2 p).store
          rest bs).1.chunksGenerated := by
  have hch :=
    runPath_chunks_of_err env bs (IngestionPipeline.ingest env st pre bs).2 p m hfail
  unfold IngestionPipeline.ingest at hfail hch ⊢
  rw [ingestLoop_append env bs pre (p :: rest) 0 0 [] st]
  simp only [ingestLoop, hfail]
  have hs := ingestLoop_shift env bs rest
    ((ingestLoop env bs pre 0 0 [] st).1.documentsProcessed +
      (runPath env bs (ingestLoop env bs pre 0 0 [] st).2 p).docs)
    ((ingestLoop env bs pre 0 0 [] st).1.chunksGenerated +
      (runPath env bs (ingestLoop env bs pre 0 0 [] st).2 p).chunks)
    ((ingestLoop env bs pre 0 0 [] st).1.errors ++
      [({ file := p, error := m } : IngestErrorEntry)])
    (runPath env bs (ingestLoop env bs pre 0 0 [] st).2 p).store
  refine ⟨?_, ?_, ?_, ?_⟩
  · rw [hs.2.2.1]; simp
  · exact hs.2.2.2
  · rw [hs.1]
  · rw [hs.2.1, hch]; omega

/-- Witness for `c9_ingest_catches_any_path_failure` exercising an embedder
failure (path `"bad"` between two healthy paths) and a store failure (a
chunk that reaches `addDocuments` without an embedding). -/
theorem c9_witness :
    ((runPath envEmbedFail 32 (IngestionPipeline.ingest envEmbedFail
        (InMemoryVectorStore.empty ⟨"t", 2, .cosine⟩) ["ok0"] 32).2 "bad").err =
      some "embedfail" ∧
     ((IngestionPipeline.ingest envEmbedFail
        (InMemoryVectorStore.empty ⟨"t", 2, .cosine⟩) (["ok0"] ++ "bad" :: ["ok1"]) 32).1.errors =
      (IngestionPipeline.ingest envEmbedFail
        (InMemoryVectorStore.empty ⟨"t", 2, .cosine⟩) ["ok0"] 32).1.errors ++ ⟨"bad", "embedfail"⟩ ::
        (IngestionPipeline.ingest envEmbedFail
        
        (runPath envEmbedFail 32 (IngestionPipeline.ingest envEmbedFail
        (InMemoryVectorStore.empty ⟨"t", 2, .cosine⟩) ["ok0"] 32).2 "bad").store ["ok1"] 32).1.errors ∧
     (IngestionPipeline.ingest envEmbedFail
        (InMemoryVectorStore.empty ⟨"t", 2, .cosine⟩) (["ok0"] ++ "bad" :: ["ok1"]) 32).2 =
      (IngestionPipeline.ingest envEmbedFail
        
        (runPath envEmbedFail 32 (IngestionPipeline.ingest envEmbedFail
        (InMemoryVectorStore.empty ⟨"t", 2, .cosine⟩) ["ok0"] 32).2 "bad").store ["ok1"] 32).2 ∧
     (IngestionPipeline.ingest envEmbedFail
        (InMemoryVectorStore.empty ⟨"t", 2, .cosine⟩) (["ok0"] ++ "bad" :: ["ok1"]) 32).1.documentsProcessed =
      (IngestionPipeline.ingest envEmbedFail
        (InMemoryVectorStore.empty ⟨"t", 2, .cosine⟩) ["ok0"] 32).1.documentsProcessed +
        (runPath envEmbedFail 32 (IngestionPipeline.ingest envEmbedFail
        (InMemoryVectorStore.empty ⟨"t", 2, .cosine⟩) ["ok0"] 32).2 "bad").docs +
        (IngestionPipeline.ingest envEmbedFail
        
        (runPath envEmbedFail 32 (IngestionPipeline.ingest envEmbedFail
        (InMemoryVectorStore.empty ⟨"t", 2, .cosine⟩) ["ok0"] 32).2 "bad").store ["ok1"] 32).1.documentsProcessed ∧
     (IngestionPipeline.ingest envEmbedFail
        (InMemoryVectorStore.empty ⟨"t", 2, .cosine⟩) (["ok0"] ++ "bad" :: ["ok1"]) 32).1.chunksGenerated =
      (IngestionPipeline.ingest envEmbedFail
        (InMemoryVectorStore.empty ⟨"t", 2, .cosine⟩) ["ok0"] 32).1.chunksGenerated +
        (IngestionPipeline.ingest envEmbedFail
        
        (runPath envEmbedFail 32 (IngestionPipeline.ingest envEmbedFail
        (InMemoryVectorStore.empty ⟨"t", 2, .cosine⟩) ["ok0"] 32).2 "bad").store ["ok1"] 32).1.chunksGenerated)) ∧
    ((runPath envStoreFail 32 (IngestionPipeline.ingest envStoreFail
        (InMemoryVectorStore.empty ⟨"t", 2, .cosine⟩) ([] : List String) 32).2 "bad").err =
      some "Document doc1-chunk-0 is missing embedding vector" ∧
     ((IngestionPipeline.ingest envStoreFail
        (InMemoryVectorStore.empty ⟨"t", 2, .cosine⟩) (([] : List String) ++ "bad" :: ["ok1"]) 32).1.errors =
      (IngestionPipeline.ingest envStoreFail
        (InMemoryVectorStore.empty ⟨"t", 2, .cosine⟩) ([] : List String) 32).1.errors ++ ⟨"bad", "Document doc1-chunk-0 is missing embedding vector"⟩ ::
        (IngestionPipeline.ingest envStoreFail
        
        (runPath envStoreFail 32 (IngestionPipeline.ingest envStoreFail
        (InMemoryVectorStore.empty ⟨"t", 2, .cosine⟩) ([] : List String) 32).2 "bad").store ["ok1"] 32).1.errors ∧
     (IngestionPipeline.ingest envStoreFail
        (InMemoryVectorStore.empty ⟨"t", 2, .cosine⟩) (([] : List String) ++ "bad" :: ["ok1"]) 32).2 =
      (IngestionPipeline.ingest envStoreFail
        
        (runPath envStoreFail 32 (IngestionPipeline.ingest envStoreFail
        (InMemoryVectorStore.empty ⟨"t", 2, .cosine⟩) ([] : List String) 32).2 "bad").store ["ok1"] 32).2 ∧
     (IngestionPipeline.ingest envStoreFail
        (InMemoryVectorStore.empty ⟨"t", 2, .cosine⟩) (([] : List String) ++ "bad" :: ["ok1"]) 32).1.documentsProcessed =
      (IngestionPipeline.ingest envStoreFail
        (InMemoryVectorStore.empty ⟨"t", 2, .cosine⟩) ([] : List String) 32).1.documentsProcessed +
        (runPath envStoreFail 32 (IngestionPipeline.ingest envStoreFail
        (InMemoryVectorStore.empty ⟨"t", 2, .cosine⟩) ([] : List String) 32).2 "bad").docs +
        (IngestionPipeline.ingest envStoreFail
        
        (runPath envStoreFail 32 (IngestionPipeline.ingest envStoreFail
        (InMemoryVectorStore.empty ⟨"t", 2, .cosine⟩) ([] : List String) 32).2 "bad").store ["ok1"] 32).1.documentsProcessed ∧
     (IngestionPipeline.ingest envStoreFail
        (InMemoryVectorStore.empty ⟨"t", 2, .cosine⟩) (([] : List String) ++ "bad" :: ["ok1"]) 32).1.chunksGenerated =
      (IngestionPipeline.ingest envStoreFail
        (InMemoryVectorStore.empty ⟨"t", 2, .cosine⟩) ([] : List String) 32).1.chunksGenerated +
        (IngestionPipeline.ingest envStoreFail
        
        (runPath envStoreFail 32 (IngestionPipeline.ingest envStoreFail
        (InMemoryVectorStore.empty ⟨"t", 2, .cosine⟩) ([] : List String) 32).2 "bad").store ["ok1"] 32).1.chunksGenerated)) :=
  ⟨⟨by decide,
    c9_ingest_catches_any_path_failure envEmbedFail 32
      (InMemoryVectorStore.empty ⟨"t", 2, .cosine⟩) ["ok0"] "bad" ["ok1"]
      "embedfail" (by decide)⟩,
   ⟨by decide,
    c9_ingest_catches_any_path_failure envStoreFail 32
      (InMemoryVectorStore.empty ⟨"t", 2, .cosine⟩) ([] : List String) "bad" ["ok1"]
      "Document doc1-chunk-0 is missing embedding vector" (by decide)⟩⟩

/-- C10 (implicit defaults): `search` omits its `limit` to 10 (so at most 10
results), and `query` with omitted options resolves to limit 10, threshold
0.0 and `includeMetadata = true` — `query` behaves exactly as if those
defaults had been passed explicitly. -/
theorem c10_default_options :
    searchDefaultLimit = 10 ∧
    (∀ (st : InMemoryVectorStore) (q : List ℚ) (filter : Option MetadataFilter),
      (st.searchNoLimit q filter).length ≤ 10) ∧
    resolveQueryOptions none = (10, 0, true) ∧
    (∀ (embedder : List String → Except String (List (List ℚ)))
        (st : InMemoryVectorStore) (q : String),
      RetrievalPipeline.query embedder st q none =
        RetrievalPipeline.query embedder st q
          (some ⟨some 10, some 0, none, some true⟩)) := by
  refine ⟨rfl, ?_, rfl, ?_⟩
  · intro st q filter
    exact List.length_take_le _ _
  · intro embedder st q
    rfl
